import Mathlib

/-!
Shallow embedding of the async coordination primitives of `js-utils`
(`src/queue.rs`, `src/spawn.rs`, `src/event.rs`), together with proofs
about the behaviour those sources implement.

Modelling conventions:
* a Rust `VecDeque` is a `List` whose head is the deque *front*;
  `push_front` is `cons`, `pop_front` takes the head, `pop_back` takes
  the last element (`getLast?` / `dropLast`), `truncate n` is `take n`;
* a panic (`assert!`) at construction is modelled as `Option.none`;
* `Rc<RefCell<PopWaker>>` allocations are identified by a `Nat` id; a
  `Weak` upgrade succeeds exactly when the id is in the world's
  `aliveIds` list; the `woken` flags live in `wokenIds`;
* invoking a `Waker` is recorded as an explicit event (the id of the
  woken waiter) rather than actually scheduling anything.
-/

namespace JsUtils

namespace Queue

/-- `Poll` result of a Rust future: `Ready` or `Pending`. -/
inductive Poll (T : Type) where
  | ready (value : T)
  | pending
  deriving Repr, DecidableEq

/-- The queue buffer operation of `Queue::push` (queue.rs lines 56-64),
restricted to its effect on the buffer: `push_front` the element, then
`truncate(capacity)` when `capacity > 0`.  The head of the list is the
front of the `VecDeque`, so the newest element sits at the head and
`truncate` discards from the back, i.e. the oldest elements. -/
def pushBuf (capacity : Nat) (buffer : List T) (element : T) : List T :=
  let buffer := element :: buffer
  if capacity > 0 then buffer.take capacity else buffer

/-- `Queue::try_pop` (queue.rs lines 82-84): `buffer.pop_back()`,
returning the popped element (the oldest, at the back) and the
remaining buffer. -/
def tryPopBuf (buffer : List T) : Option T × List T :=
  match buffer.getLast? with
  | some v => (some v, buffer.dropLast)
  | none => (none, buffer)

/-- `Queue::with_capacity` (queue.rs lines 44-50): asserts
`capacity > 0` (panic modelled as `none`), otherwise builds a queue
with the given capacity whose state starts empty. -/
def with_capacity (capacity : Nat) : Option (Nat × List T) :=
  if capacity > 0 then some (capacity, ([] : List T)) else none

/-- One consumer-visible queue operation: a push, or a `try_pop`. -/
inductive QOp (T : Type) where
  | push (v : T)
  | tryPop
  deriving Repr, DecidableEq

/-- Effect of one operation on the buffer. -/
def applyOp (capacity : Nat) (buffer : List T) : QOp T → List T
  | .push v => pushBuf capacity buffer v
  | .tryPop => (tryPopBuf buffer).2

/-- Run a sequence of pushes and try_pops on a buffer. -/
def runOps (capacity : Nat) (buffer : List T) (ops : List (QOp T)) : List T :=
  ops.foldl (applyOp capacity) buffer

/-- Drain the buffer with repeated `try_pop` until it reports empty
(fuel-indexed; `buffer.length` fuel always suffices). -/
def drainFuel : Nat → List T → List T
  | 0, _ => []
  | n + 1, buffer =>
    match tryPopBuf buffer with
    | (some v, rest) => v :: drainFuel n rest
    | (none, _) => []

/-- Drain the whole buffer with repeated `try_pop`. -/
def drain (buffer : List T) : List T :=
  drainFuel buffer.length buffer

/-- The full queue world: the queue's `State` (buffer and waker deque,
queue.rs lines 18-21) together with the heap of `PopWaker` allocations.
Each `Rc<RefCell<PopWaker>>` is identified by a `Nat` id; `aliveIds`
holds the ids whose `Rc` is still alive (so the `Weak::upgrade` of a
deque entry succeeds) and `wokenIds` holds the ids whose `woken` flag
is currently `true`.  The head of `wakers` is the deque front. -/
structure World (T : Type) where
  buffer : List T
  capacity : Nat
  wakers : List Nat
  aliveIds : List Nat
  wokenIds : List Nat
  deriving Repr, DecidableEq

/-- `Queue::new` (queue.rs lines 34-39): empty state, capacity 0
(meaning unbounded). -/
def new : World T :=
  { buffer := [], capacity := 0, wakers := [], aliveIds := [], wokenIds := [] }

/-- The loop of `Queue::wake_next` (queue.rs lines 105-114): pop weak
refs off the *front* of the waker deque until one upgrades; the first
live one has its `woken` flag set and its waker invoked, and the loop
breaks.  Returns the id of the woken waiter (if any) and the remaining
deque. -/
def wakeNextAux (aliveIds : List Nat) : List Nat → Option Nat × List Nat
  | [] => (none, [])
  | i :: rest => if i ∈ aliveIds then (some i, rest) else wakeNextAux aliveIds rest

/-- `Queue::wake_next` acting on the world; the second component is
the id of the waiter whose waker was invoked, if any. -/
def wakeNext (w : World T) : World T × Option Nat :=
  match wakeNextAux w.aliveIds w.wakers with
  | (some i, rest) => ({ w with wakers := rest, wokenIds := i :: w.wokenIds }, some i)
  | (none, rest) => ({ w with wakers := rest }, none)

/-- `Queue::push` (queue.rs lines 56-64): mutate the buffer under the
borrow (`push_front` then `truncate`), release it, then call
`wake_next`. -/
def push (w : World T) (element : T) : World T × Option Nat :=
  wakeNext { w with buffer := pushBuf w.capacity w.buffer element }

/-- `Queue::try_pop` acting on the world. -/
def try_pop (w : World T) : Option T × World T :=
  match tryPopBuf w.buffer with
  | (v, rest) => (v, { w with buffer := rest })

/-- The fields of a `Pop` future (queue.rs lines 126-130) that the
model tracks: the id of its `PopWaker` allocation, its `terminated`
flag, and whether `self.waker` is `Some`. -/
structure PopF where
  id : Nat
  terminated : Bool
  hasWaker : Bool
  deriving Repr, DecidableEq

/-- `Pop::poll` (queue.rs lines 168-195).  A terminated future returns
`Pending`.  Otherwise, when `pop_back` yields a value the future
returns `Ready`, terminates and drops its `PopWaker` `Rc` (the id is
no longer alive).  When the buffer is empty the future creates or
reuses its `PopWaker`, resets the `woken` flag to `false`, pushes a
weak ref at the *front* of the waker deque and returns `Pending`. -/
def popPoll (w : World T) (p : PopF) : Poll T × World T × PopF :=
  if p.terminated then (Poll.pending, w, p)
  else
    match tryPopBuf w.buffer with
    | (some v, rest) =>
      (Poll.ready v,
       { w with buffer := rest,
                aliveIds := if p.hasWaker then w.aliveIds.filter (fun j => j ≠ p.id)
                            else w.aliveIds },
       { p with terminated := true, hasWaker := false })
    | (none, _) =>
      (Poll.pending,
       { w with wakers := p.id :: w.wakers,
                aliveIds := if p.hasWaker then w.aliveIds else p.id :: w.aliveIds,
                wokenIds := w.wokenIds.filter (fun j => j ≠ p.id) },
       { p with hasWaker := true })

/-- `impl Drop for Pop` (queue.rs lines 152-163): `self.waker.take()`
drops the `PopWaker` `Rc` (its id stops being alive, so the weak refs
still in the deque are dead); if its `woken` flag was set — the future
was selected to be woken but never consumed a value — the wake is
forwarded with `wake_next`. -/
def dropPop (w : World T) (p : PopF) : World T × Option Nat :=
  if p.hasWaker then
    let woken := p.id ∈ w.wokenIds
    let w1 : World T := { w with aliveIds := w.aliveIds.filter (fun j => j ≠ p.id) }
    if woken then wakeNext w1 else (w1, none)
  else (w, none)

/-- A consumer draining step: a `try_pop` call, or a freshly created
`pop()` future polled once. -/
inductive DrainOp where
  | tryP
  | popP
  deriving Repr, DecidableEq

/-- Drain the queue with a mix of `try_pop` calls and fresh `pop()`
futures (given ids `base, base+1, ...`), collecting every value
observed. -/
def drainMix (w : World T) (base : Nat) : List DrainOp → List T × World T
  | [] => ([], w)
  | DrainOp.tryP :: ops =>
    match try_pop w with
    | (some v, w1) => ((drainMix w1 base ops).1.cons v, (drainMix w1 base ops).2)
    | (none, w1) => drainMix w1 base ops
  | DrainOp.popP :: ops =>
    match popPoll w { id := base, terminated := false, hasWaker := false } with
    | (Poll.ready v, w1, _) =>
      ((drainMix w1 (base + 1) ops).1.cons v, (drainMix w1 (base + 1) ops).2)
    | (Poll.pending, w1, _) => drainMix w1 (base + 1) ops

/-- Push a whole list of values into a fresh unbounded queue. -/
def pushAll (vs : List T) : World T :=
  vs.foldl (fun w v => (push w v).1) new

end Queue

namespace Spawn

/-- `Result<T, JoinError>` (spawn.rs): the task's recorded outcome —
a value, or cancellation (`JoinError` can currently only mean
cancellation, spawn.rs lines 22-34). -/
inductive TaskResult (T : Type) where
  | ok (value : T)
  | cancelled
  deriving Repr, DecidableEq

/-- `State<T>` (spawn.rs lines 92-96): the result slot and the
registered waker (tracked by presence). -/
structure State (T : Type) where
  result : Option (TaskResult T)
  hasWaker : Bool
  deriving Repr, DecidableEq

/-- `State::new` (spawn.rs lines 99-104). -/
def State.new : State T := { result := none, hasWaker := false }

/-- `State::is_finished` (spawn.rs lines 106-108). -/
def is_finished (st : State T) : Bool := st.result.isSome

/-- `State::wake` (spawn.rs lines 117-121): take the waker and invoke
it; the second component records whether a waker was invoked. -/
def wake (st : State T) : State T × Bool :=
  ({ st with hasWaker := false }, st.hasWaker)

/-- `State::set_result` (spawn.rs lines 110-115): record the result
and wake, but only when the slot is currently empty; otherwise a
no-op. -/
def set_result (st : State T) (value : TaskResult T) : State T × Bool :=
  if st.result.isNone then wake { st with result := some value }
  else (st, false)

/-- `JoinHandle::abort` (spawn.rs lines 65-67): try to record
cancellation. -/
def abort (st : State T) : State T × Bool :=
  set_result st TaskResult.cancelled

/-- The spawned wrapper's completion path (spawn.rs lines 16-18 and
81-83): try to record the computation's value. -/
def complete (st : State T) (v : T) : State T × Bool :=
  set_result st (TaskResult.ok v)

/-- `impl Future for JoinHandle`, `poll` (spawn.rs lines 137-148):
`result.take()` — if the slot holds a value, return it `Ready` and
leave the slot empty; otherwise register the waker and return
`Pending` (`none`). -/
def poll (st : State T) : Option (TaskResult T) × State T :=
  match st.result with
  | some v => (some v, { st with result := none })
  | none => (none, { st with hasWaker := true })

/-- Poll the handle `n` times, keeping the final state. -/
def pollIter : Nat → State T → State T
  | 0, st => st
  | n + 1, st => pollIter n (poll st).2

end Spawn

namespace Event

/-- The `State<E>` of an `EventStream` (event.rs lines 111-115),
together with whether the stream still holds its `EventListener`
(`self.listener.is_some()`).  The head of `queue` is the deque front:
`push_back` appends at the tail, `pop_front` takes the head. -/
structure EvState (E : Type) where
  queue : List E
  hasWaker : Bool
  listenerAlive : Bool
  deriving Repr, DecidableEq

/-- A fresh stream as built by `Stream::listen` (event.rs lines
160-181): empty queue, no waker, subscribed. -/
def listen : EvState E := { queue := [], hasWaker := false, listenerAlive := true }

/-- An event firing at the source.  The callback registered by
`listen` (event.rs lines 169-175) pushes the event at the back of the
queue (and wakes a registered consumer); it is installed only while
the `EventListener` is alive — `EventStream::stop` drops the listener,
whose `Drop` impl removes it from the event target (event.rs lines
49-63), so an event firing after `stop` never reaches the callback. -/
def fire (st : EvState E) (e : E) : EvState E :=
  if st.listenerAlive then { st with queue := st.queue ++ [e] } else st

/-- `EventStream::stop` (event.rs lines 103-108): drop the listener
(unsubscribe) and wake any registered consumer; the second component
records whether a waker was invoked. -/
def stop (st : EvState E) : EvState E × Bool :=
  ({ st with listenerAlive := false }, st.hasWaker)

/-- `EventStream::poll_next` (event.rs lines 125-144): `pop_front`
first; on an empty queue, end of stream when the listener is gone,
otherwise register the waker and stay pending.  `some (some e)` is
`Ready(Some(e))`, `some none` is `Ready(None)` (stream ended), `none`
is `Pending`. -/
def poll_next (st : EvState E) : Option (Option E) × EvState E :=
  match st.queue with
  | e :: rest => (some (some e), { st with queue := rest })
  | [] =>
    if st.listenerAlive then (none, { st with hasWaker := true })
    else (some none, st)

/-- `FusedStream::is_terminated` (event.rs lines 151-153). -/
def is_terminated (st : EvState E) : Bool :=
  !st.listenerAlive && st.queue.isEmpty

/-- Poll the stream `n` times, collecting the `Ready(Some _)` values
and the final state. -/
def collectN : Nat → EvState E → List E × EvState E
  | 0, st => ([], st)
  | n + 1, st =>
    match poll_next st with
    | (some (some e), st1) => ((collectN n st1).1.cons e, (collectN n st1).2)
    | (_, st1) => collectN n st1

end Event

namespace Trace

/-- One observable step of an operation, with respect to one
instance's state cell: acquiring or releasing a borrow of it (`excl`
distinguishes `borrow_mut` / `Mutex::lock` from a shared `borrow`),
and invoking a registered consumer's waker. -/
inductive Act where
  | acq (excl : Bool)
  | rel (excl : Bool)
  | wake
  deriving Repr, DecidableEq

/-- Does some `wake` in the trace happen while at least one exclusive
borrow of the instance state is held?  (`d` counts open exclusive
borrows.) -/
def anyWakeHeldAux : List Act → Nat → Bool
  | [], _ => false
  | Act.acq true :: tr, d => anyWakeHeldAux tr (d + 1)
  | Act.acq false :: tr, d => anyWakeHeldAux tr d
  | Act.rel true :: tr, d => anyWakeHeldAux tr (d - 1)
  | Act.rel false :: tr, d => anyWakeHeldAux tr d
  | Act.wake :: tr, d => decide (0 < d) || anyWakeHeldAux tr d

/-- Some wake happens while the exclusive region is held. -/
def anyWakeHeld (tr : List Act) : Bool := anyWakeHeldAux tr 0

/-- Does every `wake` in the trace happen while at least one exclusive
borrow of the instance state is held? -/
def allWakesHeldAux : List Act → Nat → Bool
  | [], _ => true
  | Act.acq true :: tr, d => allWakesHeldAux tr (d + 1)
  | Act.acq false :: tr, d => allWakesHeldAux tr d
  | Act.rel true :: tr, d => allWakesHeldAux tr (d - 1)
  | Act.rel false :: tr, d => allWakesHeldAux tr d
  | Act.wake :: tr, d => decide (0 < d) && allWakesHeldAux tr d

/-- Every wake happens while the exclusive region is held. -/
def allWakesHeld (tr : List Act) : Bool := allWakesHeldAux tr 0

/-- Borrow trace of `Queue::wake_next` (queue.rs lines 105-114).  Each
`while let` iteration re-acquires `self.state.borrow_mut()` in the
scrutinee; Rust keeps that temporary alive until the end of the
iteration, so when an upgrade succeeds, `wake_by_ref` runs while the
borrow is still held. -/
def wakeNextTrace (aliveIds : List Nat) : List Nat → List Act
  | [] => [Act.acq true, Act.rel true]
  | i :: rest =>
    if i ∈ aliveIds then [Act.acq true, Act.wake, Act.rel true]
    else Act.acq true :: Act.rel true :: wakeNextTrace aliveIds rest

/-- Borrow trace of `Queue::push` (queue.rs lines 56-64): the buffer
mutation happens under `borrow_mut`, the borrow is explicitly dropped
(`drop(state)`), and only then `wake_next` runs. -/
def queuePushTrace (aliveIds wakers : List Nat) : List Act :=
  Act.acq true :: Act.rel true :: wakeNextTrace aliveIds wakers

/-- Borrow trace of the listener callback installed by
`Stream::listen` (event.rs lines 169-175): `state_clone.borrow_mut()`
is held across both the `push_back` and the conditional
`wake_by_ref`. -/
def onEventTrace (hasWaker : Bool) : List Act :=
  Act.acq true :: (if hasWaker then [Act.wake] else []) ++ [Act.rel true]

/-- Borrow trace of `EventStream::stop` (event.rs lines 103-108): a
*shared* `borrow()` of the state is held across the conditional
`wake_by_ref`. -/
def stopTrace (hasWaker : Bool) : List Act :=
  Act.acq false :: (if hasWaker then [Act.wake] else []) ++ [Act.rel false]

/-- Borrow trace of `self.state.lock().unwrap().set_result(..)`
(spawn.rs lines 65-67, 81-83 calling lines 110-121): the `MutexGuard`
temporary lives to the end of the statement, and `set_result` invokes
`wake` inside it (when the slot is empty and a waker is present). -/
def setResultTrace (slotEmpty hasWaker : Bool) : List Act :=
  Act.acq true :: (if slotEmpty && hasWaker then [Act.wake] else []) ++ [Act.rel true]

end Trace

-- ### Theorems about the queue model

namespace Queue

theorem tryPopBuf_concat (ys : List T) (v : T) :
    tryPopBuf (ys ++ [v]) = (some v, ys) := by
  simp [tryPopBuf, List.getLast?_concat]

theorem drainFuel_eq_reverse (n : Nat) :
    ∀ buffer : List T, buffer.length ≤ n → drainFuel n buffer = buffer.reverse := by
  induction n with
  | zero =>
    intro buffer h
    rw [Nat.le_zero, List.length_eq_zero] at h
    simp [h, drainFuel]
  | succ n ih =>
    intro buffer h
    rcases List.eq_nil_or_concat buffer with rfl | ⟨ys, v, rfl⟩
    · simp [drainFuel, tryPopBuf]
    · simp only [List.concat_eq_append] at h ⊢
      rw [drainFuel, tryPopBuf_concat]
      show v :: drainFuel n ys = _
      rw [ih ys (by simpa using Nat.le_of_succ_le_succ (by simpa using h))]
      simp

theorem drain_eq_reverse (buffer : List T) : drain buffer = buffer.reverse :=
  drainFuel_eq_reverse _ buffer le_rfl

theorem take_append_take (xs ys : List T) (k : Nat) :
    (xs ++ ys.take k).take k = (xs ++ ys).take k := by
  rw [List.take_append_eq_append_take, List.take_append_eq_append_take, List.take_take,
    Nat.min_eq_left (Nat.sub_le _ _)]

/-- Pushing a whole list: the buffer ends as the reverse of the pushed
values, truncated to the capacity (when bounded). -/
theorem foldl_pushBuf (k : Nat) (hk : 0 < k) :
    ∀ (vs acc : List T), acc.length ≤ k →
      vs.foldl (pushBuf k) acc = (vs.reverse ++ acc).take k := by
  intro vs
  induction vs with
  | nil =>
    intro acc hacc
    simp [List.take_of_length_le hacc]
  | cons v vs ih =>
    intro acc hacc
    have hlen : ((v :: acc).take k).length ≤ k := by
      simp [List.length_take]
    rw [List.foldl_cons]
    have hstep : pushBuf k acc v = (v :: acc).take k := by
      simp [pushBuf, hk]
    rw [hstep, ih _ hlen]
    rw [List.reverse_cons, List.append_assoc, take_append_take]
    rfl

theorem wakeNextAux_fst (aliveIds : List Nat) :
    ∀ ws : List Nat,
      (wakeNextAux aliveIds ws).1 = ws.find? (fun i => decide (i ∈ aliveIds)) := by
  intro ws
  induction ws with
  | nil => rfl
  | cons i rest ih =>
    by_cases hi : i ∈ aliveIds
    · simp [wakeNextAux, hi, List.find?]
    · simp [wakeNextAux, hi, List.find?, ih]

theorem wakeNext_woken (w : World T) :
    (wakeNext w).2 = w.wakers.find? (fun i => decide (i ∈ w.aliveIds)) := by
  rw [wakeNext.eq_def, ← wakeNextAux_fst]
  rcases h : wakeNextAux w.aliveIds w.wakers with ⟨i, rest⟩
  cases i <;> simp

theorem wakeNext_preserves (w : World T) :
    ((wakeNext w).1).buffer = w.buffer ∧ ((wakeNext w).1).capacity = w.capacity ∧
      ((wakeNext w).1).aliveIds = w.aliveIds := by
  rw [wakeNext.eq_def]
  rcases wakeNextAux w.aliveIds w.wakers with ⟨i, rest⟩
  cases i <;> simp

theorem push_fst_fields (w : World T) (v : T) :
    ((push w v).1).buffer = pushBuf w.capacity w.buffer v ∧
      ((push w v).1).capacity = w.capacity := by
  have h := wakeNext_preserves (T := T) { w with buffer := pushBuf w.capacity w.buffer v }
  exact ⟨h.1, h.2.1⟩

theorem foldl_push_buffer (vs : List T) :
    ∀ w : World T, w.capacity = 0 →
      (vs.foldl (fun w v => (push w v).1) w).buffer = vs.reverse ++ w.buffer ∧
      (vs.foldl (fun w v => (push w v).1) w).capacity = 0 := by
  induction vs with
  | nil =>
    intro w h
    exact ⟨by simp, h⟩
  | cons v vs ih =>
    intro w h
    rw [List.foldl_cons]
    have hp := push_fst_fields w v
    have hcap : ((push w v).1).capacity = 0 := by rw [hp.2, h]
    have hrec := ih ((push w v).1) hcap
    refine ⟨?_, hrec.2⟩
    rw [hrec.1, hp.1, h]
    simp [pushBuf]

theorem drainMix_reverse :
    ∀ (ops : List DrainOp) (w : World T) (base : Nat), ops.length = w.buffer.length →
      (drainMix w base ops).1 = w.buffer.reverse ∧ (drainMix w base ops).2.buffer = [] := by
  intro ops
  induction ops with
  | nil =>
    intro w base h
    have hb : w.buffer = [] := List.length_eq_zero.1 h.symm
    simp [drainMix, hb]
  | cons op ops ih =>
    intro w base h
    rcases List.eq_nil_or_concat w.buffer with hbuf | ⟨ys, v, hbuf⟩
    · rw [hbuf] at h
      simp at h
    · simp only [List.concat_eq_append] at hbuf
      have hlen : ops.length = ys.length := by
        rw [hbuf] at h
        simpa using Nat.succ_injective (by simpa using h)
      cases op with
      | tryP =>
        have htp : try_pop w = (some v, { w with buffer := ys }) := by
          simp [try_pop, hbuf, tryPopBuf_concat]
        have hrec := ih { w with buffer := ys } base hlen
        rw [drainMix, htp]
        simp only [hbuf]
        exact ⟨by rw [hrec.1]; simp, hrec.2⟩
      | popP =>
        have hpp : popPoll w { id := base, terminated := false, hasWaker := false } =
            (Poll.ready v, { w with buffer := ys },
             { id := base, terminated := true, hasWaker := false }) := by
          simp [popPoll, hbuf, tryPopBuf_concat]
        have hrec := ih { w with buffer := ys } (base + 1) hlen
        rw [drainMix, hpp]
        simp only [hbuf]
        exact ⟨by rw [hrec.1]; simp, hrec.2⟩

theorem runOps_length_le (k : Nat) (hk : 0 < k) :
    ∀ (ops : List (QOp T)) (buffer : List T), buffer.length ≤ k →
      (runOps k buffer ops).length ≤ k := by
  intro ops
  induction ops with
  | nil => intro buffer h; exact h
  | cons op ops ih =>
    intro buffer h
    rw [runOps, List.foldl_cons]
    apply ih
    cases op with
    | push v =>
      simp only [applyOp, pushBuf, hk, if_pos, List.length_take]
      omega
    | tryPop =>
      have h2 : ((tryPopBuf buffer).2).length ≤ buffer.length := by
        rcases hb : buffer.getLast? with _ | v
        · simp [tryPopBuf, hb]
        · simp only [tryPopBuf, hb, List.length_dropLast]
          omega
      exact le_trans h2 h

/-- C1, counterexample to the claim as stated.  Two consumers suspend
on `pop`: waiter 1 polls (and registers) first, waiter 2 second.  A
push then wakes waiter 2 — the most recently registered — not waiter 1,
the one that has been waiting longest.  So wake order is not FIFO
registration order. -/
theorem push_wake_not_fifo_counterexample :
    (push (popPoll ((popPoll (new : World Nat)
        { id := 1, terminated := false, hasWaker := false }).2.1)
        { id := 2, terminated := false, hasWaker := false }).2.1 42).2 = some 2 ∧
      (2 : Nat) ≠ 1 := by
  decide

/-- C1 (amended): a push wakes at most one pending consumer (the wake
event is an `Option`), and the consumer woken is the first *live*
entry from the front of the waker deque; since `Pop::poll` registers
waiters by pushing at the front, that is the most recently registered
live waiter (LIFO), not the earliest-registered one. -/
theorem push_wakes_most_recently_registered (w : World T) (x : T) (p : PopF)
    (hp : p.terminated = false) :
    (push w x).2 = w.wakers.find? (fun i => decide (i ∈ w.aliveIds)) ∧
    ((popPoll ({ w with buffer := [] } : World T) p).2.1).wakers = p.id :: w.wakers := by
  constructor
  · rw [push, wakeNext_woken]
  · simp [popPoll, hp, tryPopBuf]

/-- Witness for `push_wakes_most_recently_registered` at a concrete
state: waker deque `[2, 1]`, both alive; the push wakes waiter 2. -/
theorem push_wakes_most_recently_registered_witness :
    (push (⟨[], 0, [2, 1], [1, 2], []⟩ : World Nat) 7).2 = some 2 ∧
    ((popPoll ({ (⟨[], 0, [2, 1], [1, 2], []⟩ : World Nat) with buffer := [] } : World Nat)
        { id := 5, terminated := false, hasWaker := false }).2.1).wakers = [5, 2, 1] := by
  have h := push_wakes_most_recently_registered (T := Nat) ⟨[], 0, [2, 1], [1, 2], []⟩ 7
    { id := 5, terminated := false, hasWaker := false } rfl
  refine ⟨?_, h.2⟩
  rw [h.1]
  decide

/-- C2: cancellation safety of `Pop`.  Dropping a `Pop` future whose
`woken` flag was set (it was selected to be woken) and which still
holds its waker (it never consumed a value) forwards the wake with
`wake_next`: the first live waiter remaining in the deque is woken, so
the notification is not lost. -/
theorem drop_forwards_wake (w : World T) (p : PopF)
    (hw : p.hasWaker = true) (hwoken : p.id ∈ w.wokenIds)
    (hlive : ∃ j, j ∈ w.wakers ∧ j ∈ w.aliveIds ∧ j ≠ p.id) :
    (dropPop w p).2 =
      w.wakers.find? (fun j => decide (j ∈ w.aliveIds.filter (fun i => i ≠ p.id))) ∧
    ((dropPop w p).2).isSome = true := by
  have hstep : dropPop w p =
      wakeNext { w with aliveIds := w.aliveIds.filter (fun j => j ≠ p.id) } := by
    simp [dropPop, hw, hwoken]
  constructor
  · rw [hstep, wakeNext_woken]
  · rw [hstep, wakeNext_woken]
    simp only [List.find?_isSome]
    rcases hlive with ⟨j, hj1, hj2, hj3⟩
    exact ⟨j, hj1, by simp [List.mem_filter, hj2, hj3]⟩

/-- Witness for `drop_forwards_wake`: waiter 7 was woken but is
dropped; live waiter 2 is still registered, and the drop wakes it. -/
theorem drop_forwards_wake_witness :
    (dropPop (⟨[], 0, [2, 7], [2], [7]⟩ : World Nat)
      { id := 7, terminated := false, hasWaker := true }).2 = some 2 := by
  have h := drop_forwards_wake (T := Nat) ⟨[], 0, [2, 7], [2], [7]⟩
    { id := 7, terminated := false, hasWaker := true } rfl (by decide)
    ⟨2, by decide, by decide, by decide⟩
  rw [h.1]
  decide

/-- C3: for a bounded queue of capacity `k > 0`, the buffer length
never exceeds `k` under any sequence of pushes and try_pops; and after
pushing `k + 1` values into a fresh queue, draining with `try_pop`
yields exactly the values pushed minus the first (the oldest value was
evicted, not the newest). -/
theorem bounded_len_le_capacity_and_oldest_evicted (k : Nat) (hk : 0 < k) :
    (∀ ops : List (QOp T), (runOps k [] ops).length ≤ k) ∧
    (∀ vs : List T, vs.length = k + 1 →
      drain (runOps k [] (vs.map QOp.push)) = vs.drop 1) := by
  constructor
  · intro ops
    exact runOps_length_le k hk ops [] (by simp)
  · intro vs hvs
    have hfold : runOps k [] (vs.map QOp.push) = vs.foldl (pushBuf k) [] := by
      rw [runOps, List.foldl_map]
      rfl
    rw [hfold, foldl_pushBuf k hk vs [] (by simp), List.append_nil, drain_eq_reverse,
      List.take_reverse, List.reverse_reverse, hvs, Nat.add_sub_cancel_left]

/-- Witness for `bounded_len_le_capacity_and_oldest_evicted`:
capacity 3, pushes 1,2,3,4; the drain yields 2,3,4 (value 1, the
oldest, was evicted). -/
theorem bounded_len_le_capacity_and_oldest_evicted_witness :
    (runOps 3 [] (([1, 2, 3, 4] : List Nat).map QOp.push)).length ≤ 3 ∧
    drain (runOps 3 [] (([1, 2, 3, 4] : List Nat).map QOp.push)) = [2, 3, 4] := by
  have h := bounded_len_le_capacity_and_oldest_evicted (T := Nat) 3 (by decide)
  exact ⟨h.1 _, h.2 [1, 2, 3, 4] (by decide)⟩

/-- C4: an unbounded queue is FIFO for a single consumer mixing
`try_pop` and `pop`: pushing `vs` and then draining with any mix of
the two (one operation per value) observes exactly `vs` in order, and
leaves the buffer empty. -/
theorem unbounded_fifo_drain (vs : List T) (ops : List DrainOp)
    (h : ops.length = vs.length) :
    (drainMix (pushAll vs) 0 ops).1 = vs ∧
    (drainMix (pushAll vs) 0 ops).2.buffer = [] := by
  have hw := foldl_push_buffer vs new rfl
  have hbuf : (pushAll vs).buffer = vs.reverse := by
    simpa [pushAll, new] using hw.1
  have hd := drainMix_reverse ops (pushAll vs) 0
    (by rw [hbuf, List.length_reverse]; exact h)
  rwa [hbuf, List.reverse_reverse] at hd

/-- Witness for `unbounded_fifo_drain`: push 1, 2, 3; `try_pop` then
two `pop` polls observe 1, 2, 3 and the queue ends empty. -/
theorem unbounded_fifo_drain_witness :
    (drainMix (pushAll ([1, 2, 3] : List Nat)) 0
        [DrainOp.tryP, DrainOp.popP, DrainOp.popP]).1 = [1, 2, 3] ∧
    (drainMix (pushAll ([1, 2, 3] : List Nat)) 0
        [DrainOp.tryP, DrainOp.popP, DrainOp.popP]).2.buffer = [] :=
  unbounded_fifo_drain [1, 2, 3] [DrainOp.tryP, DrainOp.popP, DrainOp.popP] (by decide)

/-- C9: `Queue::with_capacity(0)` fails at construction (the assert
panics, modelled as `none`); every positive capacity succeeds. -/
theorem with_capacity_zero_fails_fast :
    (with_capacity 0 : Option (Nat × List T)) = none ∧
    ∀ c : Nat, 0 < c → ((with_capacity c : Option (Nat × List T))).isSome = true := by
  constructor
  · simp [with_capacity]
  · intro c hc
    simp [with_capacity, hc]

/-- Witness for `with_capacity_zero_fails_fast` at capacity 3. -/
theorem with_capacity_zero_fails_fast_witness :
    ((with_capacity 3 : Option (Nat × List Nat))).isSome = true :=
  (with_capacity_zero_fails_fast (T := Nat)).2 3 (by decide)

end Queue

-- ### Theorems about the task-handle model

namespace Spawn

/-- C6, counterexample to the claim as stated.  The computation
records `Ok(1)` first; `poll` consumes it (`result.take()`), leaving
the slot empty; a later `abort()` then finds the slot empty and writes
`Err(cancelled)` — the later write is *not* a no-op, so the slot is
not write-once over the handle's lifetime. -/
theorem result_not_write_once_counterexample :
    ((complete (State.new : State Nat) 1).1.result = some (TaskResult.ok 1)) ∧
    ((poll (complete (State.new : State Nat) 1).1).2.result = none) ∧
    ((abort (poll (complete (State.new : State Nat) 1).1).2).1.result =
      some TaskResult.cancelled) := by
  decide

/-- C6 (amended): the result slot is write-once only *while its
content has not been consumed by `poll`*: any writer that finds the
slot occupied is a no-op, so an abort after a value was recorded (and
not yet consumed) leaves the value intact and join resolves to it; an
abort before any result records cancellation, a later completion is a
no-op, and join resolves to cancellation.  (Once `poll` has consumed
the result the slot is empty again and a later writer fills it.) -/
theorem set_result_write_once_until_consumed (st : State T) (r : TaskResult T)
    (h : st.result = some r) :
    (∀ u : TaskResult T, set_result st u = (st, false)) ∧
    (poll st).1 = some r ∧
    (∀ stE : State T, stE.result = none → ∀ x : T,
       (complete (abort stE).1 x).1.result = some TaskResult.cancelled ∧
       (poll (abort stE).1).1 = some TaskResult.cancelled) := by
  refine ⟨?_, ?_, ?_⟩
  · intro u
    simp [set_result, h]
  · simp [poll, h]
  · intro stE hE x
    have h1 : (abort stE).1.result = some TaskResult.cancelled := by
      simp [abort, set_result, wake, hE]
    exact ⟨by simp [complete, set_result, h1], by simp [poll, h1]⟩

/-- Witness for `set_result_write_once_until_consumed`: with `Ok(1)`
recorded, an abort is a no-op and join resolves to the value; with an
empty slot, abort then completion resolves to cancellation. -/
theorem set_result_write_once_until_consumed_witness :
    set_result (⟨some (TaskResult.ok 1), false⟩ : State Nat) TaskResult.cancelled =
      (⟨some (TaskResult.ok 1), false⟩, false) ∧
    (poll (⟨some (TaskResult.ok 1), false⟩ : State Nat)).1 = some (TaskResult.ok 1) ∧
    (poll (abort (⟨none, false⟩ : State Nat)).1).1 = some TaskResult.cancelled := by
  have h := set_result_write_once_until_consumed (⟨some (TaskResult.ok 1), false⟩ : State Nat)
    (TaskResult.ok 1) rfl
  exact ⟨h.1 _, h.2.1, (h.2.2 ⟨none, false⟩ rfl 0).2⟩

/-- C8: polling the handle again after it resolved does not panic and
cannot return the value twice: the resolving poll leaves the result
slot empty, and the next poll finds nothing and returns `Pending`. -/
theorem poll_after_ready_pending (st : State T) (v : TaskResult T)
    (h : (poll st).1 = some v) :
    ((poll st).2).result = none ∧ (poll (poll st).2).1 = none := by
  cases hr : st.result with
  | none =>
    rw [poll.eq_def, hr] at h
    simp at h
  | some r =>
    constructor
    · simp [poll, hr]
    · simp [poll, hr]

/-- Witness for `poll_after_ready_pending` with `Ok(2)` recorded. -/
theorem poll_after_ready_pending_witness :
    ((poll (⟨some (TaskResult.ok 2), false⟩ : State Nat)).2).result = none ∧
    (poll (poll (⟨some (TaskResult.ok 2), false⟩ : State Nat)).2).1 = none :=
  poll_after_ready_pending (⟨some (TaskResult.ok 2), false⟩ : State Nat)
    (TaskResult.ok 2) (by decide)

theorem pollIter_result_none (n : Nat) :
    ∀ st : State T, st.result = none → (pollIter n st).result = none := by
  induction n with
  | zero => intro st h; exact h
  | succ n ih =>
    intro st h
    rw [pollIter]
    exact ih _ (by simp [poll, h])

/-- C10, counterexample to the claim as stated.  After the resolving
poll the slot is empty and `is_finished` is `false` — but not "from
then on": a subsequent `abort()` refills the slot, `is_finished`
returns `true` again, and the next poll returns `Ready(cancelled)`
rather than `Pending` forever. -/
theorem is_finished_reverts_counterexample :
    ((poll (complete (State.new : State Nat) 1).1).1 = some (TaskResult.ok 1)) ∧
    (is_finished (poll (complete (State.new : State Nat) 1).1).2 = false) ∧
    (is_finished (abort (poll (complete (State.new : State Nat) 1).1).2).1 = true) ∧
    ((poll (abort (poll (complete (State.new : State Nat) 1).1).2).1).1 =
      some TaskResult.cancelled) := by
  decide

/-- C10 (amended): once `poll` returns `Ready`, the result slot is
left empty, `is_finished()` returns `false`, and every subsequent poll
returns `Pending` — for as long as no writer runs.  But a later
`set_result` (an abort, or a completion that had not yet recorded)
finds the empty slot and fills it, making `is_finished()` true again;
so `is_finished()` is indeed not monotone. -/
theorem poll_ready_resets_until_refilled (st : State T) (v : TaskResult T)
    (h : (poll st).1 = some v) :
    ((poll st).2).result = none ∧
    is_finished (poll st).2 = false ∧
    (∀ n : Nat, (poll (pollIter n (poll st).2)).1 = none) ∧
    (∀ u : TaskResult T, (set_result (poll st).2 u).1.result = some u ∧
       is_finished (set_result (poll st).2 u).1 = true) := by
  have hnone : ((poll st).2).result = none := by
    cases hr : st.result with
    | none =>
      rw [poll.eq_def, hr] at h
      simp at h
    | some r => simp [poll, hr]
  refine ⟨hnone, by simp [is_finished, hnone], ?_, ?_⟩
  · intro n
    have hres := pollIter_result_none n ((poll st).2) hnone
    rw [poll.eq_def, hres]
  · intro u
    constructor
    · simp [set_result, wake, hnone]
    · simp [is_finished, set_result, wake, hnone]

/-- Witness for `poll_ready_resets_until_refilled` with `Ok(1)`
recorded, two idle re-polls, and an abort refilling the slot. -/
theorem poll_ready_resets_until_refilled_witness :
    ((poll (⟨some (TaskResult.ok 1), false⟩ : State Nat)).2).result = none ∧
    (poll (pollIter 2 (poll (⟨some (TaskResult.ok 1), false⟩ : State Nat)).2)).1 = none ∧
    is_finished (set_result (poll (⟨some (TaskResult.ok 1), false⟩ : State Nat)).2
      TaskResult.cancelled).1 = true := by
  have h := poll_ready_resets_until_refilled (⟨some (TaskResult.ok 1), false⟩ : State Nat)
    (TaskResult.ok 1) (by decide)
  exact ⟨h.1, h.2.2.1 2, (h.2.2.2 TaskResult.cancelled).2⟩

end Spawn

-- ### Theorems about the event-stream model

namespace Event

theorem fire_after_stop (es : List E) :
    ∀ st : EvState E, st.listenerAlive = false → es.foldl fire st = st := by
  induction es with
  | nil => intro st _; rfl
  | cons e es ih =>
    intro st h
    rw [List.foldl_cons, show fire st e = st from by simp [fire, h]]
    exact ih st h

theorem collectN_stopped (q : List E) :
    ∀ st : EvState E, st.queue = q → st.listenerAlive = false →
      (collectN q.length st).1 = q ∧ (collectN q.length st).2.queue = [] ∧
      (collectN q.length st).2.listenerAlive = false := by
  induction q with
  | nil =>
    intro st h1 h2
    exact ⟨rfl, h1, h2⟩
  | cons e rest ih =>
    intro st h1 h2
    have hp : poll_next st = (some (some e), { st with queue := rest }) := by
      simp [poll_next, h1]
    have hstep : collectN (e :: rest).length st =
        ((collectN rest.length { st with queue := rest }).1.cons e,
         (collectN rest.length { st with queue := rest }).2) := by
      rw [List.length_cons, collectN, hp]
    have hrec := ih { st with queue := rest } rfl h2
    rw [hstep]
    refine ⟨?_, hrec.2.1, hrec.2.2⟩
    show (collectN rest.length { st with queue := rest }).1.cons e = e :: rest
    rw [List.cons_eq_cons]
    exact ⟨rfl, hrec.1⟩

/-- C5: calling `stop()` with events buffered: any events the source
fires afterwards never reach the queue (the listener was removed), the
consumer's next polls yield exactly the buffered events in arrival
order, and the poll after that reports end of stream
(`Ready(None)`). -/
theorem stop_drains_buffer_then_ends (st : EvState E) (es : List E) :
    es.foldl fire (stop st).1 = (stop st).1 ∧
    (collectN st.queue.length (es.foldl fire (stop st).1)).1 = st.queue ∧
    (poll_next (collectN st.queue.length (es.foldl fire (stop st).1)).2).1 = some none := by
  have hstop : ((stop st).1).listenerAlive = false := rfl
  have hfold := fire_after_stop es (stop st).1 hstop
  have hc := collectN_stopped st.queue (stop st).1 rfl hstop
  refine ⟨hfold, ?_, ?_⟩
  · rw [hfold]
    exact hc.1
  · rw [hfold, poll_next.eq_def, hc.2.1, hc.2.2]
    simp

end Event

-- ### Theorems about borrow/wake ordering

namespace Trace

/-- C7, counterexample to the claim as stated.  The listener callback
installed by `Stream::listen` invokes `wake_by_ref` while its
`borrow_mut` of the stream state is still held; `Queue::wake_next`
holds the queue state's `borrow_mut` (the `while let` scrutinee
temporary) across the wake; `JoinHandle`'s `set_result` wakes while
the mutex guard is held.  So the wake callback *is* invoked while the
instance state is exclusively held. -/
theorem wake_inside_exclusive_region_counterexample :
    anyWakeHeld (onEventTrace true) = true ∧
    anyWakeHeld (queuePushTrace [1] [1]) = true ∧
    anyWakeHeld (setResultTrace true true) = true := by
  decide

theorem allWakesHeld_wakeNextTrace (aliveIds : List Nat) :
    ∀ wakers : List Nat, allWakesHeld (wakeNextTrace aliveIds wakers) = true := by
  intro wakers
  induction wakers with
  | nil => rfl
  | cons i rest ih =>
    by_cases hi : i ∈ aliveIds
    · simp [wakeNextTrace, hi, allWakesHeld, allWakesHeldAux]
    · simpa [wakeNextTrace, hi, allWakesHeld, allWakesHeldAux] using ih

/-- C7 (amended): `Queue::push` does release the borrow protecting its
buffer mutation before `wake_next` begins, but every wake that
`wake_next` performs happens while `wake_next`'s own exclusive borrow
of the queue state is held; the listen callback wakes while its
`borrow_mut` is held, and `set_result` wakes while the mutex is held.
Only `EventStream::stop` wakes with no exclusive borrow held (it holds
a shared `borrow()`). -/
theorem wake_borrow_discipline (aliveIds wakers : List Nat) (hasWaker : Bool) :
    queuePushTrace aliveIds wakers =
      Act.acq true :: Act.rel true :: wakeNextTrace aliveIds wakers ∧
    allWakesHeld (wakeNextTrace aliveIds wakers) = true ∧
    anyWakeHeld (onEventTrace hasWaker) = hasWaker ∧
    anyWakeHeld (setResultTrace true hasWaker) = hasWaker ∧
    anyWakeHeld (stopTrace hasWaker) = false := by
  refine ⟨rfl, allWakesHeld_wakeNextTrace aliveIds wakers, ?_, ?_, ?_⟩ <;>
    cases hasWaker <;> rfl

end Trace

end JsUtils
